import Mathlib

/-!
Shallow embedding of `logzio/sender.py` (the delivery pipeline of the
logzio-python-handler repository): the size-bounded batch assembler
`_get_messages_up_to_max_allowed_size`, the per-batch retry loop and
backup branch of `_flush_queue`, the drain loop `_drain_queue`, the
facade operations `append` / `flush`, and the fallback sink
`backup_logs`.

Machine-level conventions: byte sizes and retry counts are `Nat`;
an HTTP response is abstracted to its status code; a transport-level
fault (timeout, connection error, i.e. the `except Exception` branch)
is one constructor; observable side effects (POST attempts, retry
sleeps, backup writes) are recorded as explicit event lists; fallible
code returns `Except`.
-/

namespace Logzio

/-- `MAX_BULK_SIZE_IN_BYTES = 1 * 1024 * 1024` — module-level constant of
`sender.py`; the batch assembler's byte cap. -/
def MAX_BULK_SIZE_IN_BYTES : Nat := 1 * 1024 * 1024

/-- Result of one `requests_session.post` call inside `_flush_queue`:
either a response with an HTTP status code, or a transport-level
exception (the `except Exception` branch of the attempt loop). -/
inductive AttemptResult
  | status (code : Nat)
  | exn
deriving DecidableEq, Repr

/-- A result is a transient failure when it is a non-200/400/401 status
or a transport-level exception — exactly the cases where `_flush_queue`
sets `should_retry = True`. -/
def isTransient : AttemptResult → Bool
  | AttemptResult.status c => !(c == 200 || c == 400 || c == 401)
  | AttemptResult.exn => true

/-- Observable side effects of `_flush_queue` on one batch: a POST
attempt, a `sleep(sleep_between_retries)`, or a `backup_logs` call. -/
inductive SendEvent
  | post
  | sleepRetry
  | backupWrite
deriving DecidableEq, Repr

/-- Terminal outcome of the per-batch attempt loop of `_flush_queue`:
`success` for the status-200 break, `rejected` for the 400/401 breaks
(both set `should_backup_to_disk = False`), `exhausted` when the
`for current_try in range(number_of_retries)` loop completes without
a break (`should_backup_to_disk` stays `True`). -/
inductive SendOutcome
  | success
  | rejected
  | exhausted
deriving DecidableEq, Repr

/-- The body of `for current_try in range(self.number_of_retries)` in
`_flush_queue`, run over the remaining attempt indices. `transport i`
is what the POST of attempt `i` produces. On status 200 / 400 / 401
the loop breaks after the single POST; on any other status or on an
exception it records the POST, sleeps `sleep_between_retries`
(the `if should_retry: sleep(...)` line runs after every failed
attempt, the last one included), and goes on to the next index. -/
def sendGo (transport : Nat → AttemptResult) : List Nat → SendOutcome × List SendEvent
  | [] => (SendOutcome.exhausted, [])
  | i :: rest =>
    match transport i with
    | AttemptResult.status c =>
      if c = 200 then (SendOutcome.success, [SendEvent.post])
      else if c = 400 then (SendOutcome.rejected, [SendEvent.post])
      else if c = 401 then (SendOutcome.rejected, [SendEvent.post])
      else
        let r := sendGo transport rest
        (r.1, SendEvent.post :: SendEvent.sleepRetry :: r.2)
    | AttemptResult.exn =>
      let r := sendGo transport rest
      (r.1, SendEvent.post :: SendEvent.sleepRetry :: r.2)

/-- The whole attempt loop of `_flush_queue` for one batch:
`for current_try in range(number_of_retries)`. -/
def deliver (numberOfRetries : Nat) (transport : Nat → AttemptResult) :
    SendOutcome × List SendEvent :=
  sendGo transport (List.range numberOfRetries)

/-- One batch of `_flush_queue` including the backup branch:
`if should_backup_to_disk and self.backup_logs: backup_logs(...)`.
`should_backup_to_disk` is `True` exactly when the attempt loop ended
without a break, i.e. the outcome is `exhausted`. -/
def flushBatch (backupEnabled : Bool) (numberOfRetries : Nat)
    (transport : Nat → AttemptResult) : SendOutcome × List SendEvent :=
  let d := deliver numberOfRetries transport
  if d.1 = SendOutcome.exhausted && backupEnabled then
    (d.1, d.2 ++ [SendEvent.backupWrite])
  else d

/-- The `while not self.queue.empty()` loop of
`_get_messages_up_to_max_allowed_size`, with the byte cap as an explicit
parameter `maxBytes`. `estSize` is the per-entry size estimate
(`sys.getsizeof`, or `len * 4` on pypy — abstracted, since it is
interpreter-specific). Pops the head, adds its size, appends it to the
batch, and breaks as soon as `current_size >= maxBytes`. Returns the
assembled batch together with the remaining queue. -/
def assembleGo (estSize : String → Nat) (maxBytes : Nat) :
    List String → Nat → List String → List String × List String
  | [], _, acc => (acc.reverse, [])
  | x :: rest, currentSize, acc =>
    if maxBytes ≤ currentSize + estSize x then ((x :: acc).reverse, rest)
    else assembleGo estSize maxBytes rest (currentSize + estSize x) (x :: acc)

/-- Batch assembly for an arbitrary cap: `logs_list = []`,
`current_size = 0`, then the pop loop. -/
def assembleWithCap (estSize : String → Nat) (maxBytes : Nat)
    (queue : List String) : List String × List String :=
  assembleGo estSize maxBytes queue 0 []

/-- `_get_messages_up_to_max_allowed_size`: batch assembly at the fixed
module-level cap `MAX_BULK_SIZE_IN_BYTES`. -/
def getMessagesUpToMaxAllowedSize (estSize : String → Nat)
    (queue : List String) : List String × List String :=
  assembleWithCap estSize MAX_BULK_SIZE_IN_BYTES queue

/-- The outer `while not self.queue.empty()` loop of `_flush_queue`,
with a fallible fallback sink. `backupOk = false` models a
`backup_logs` call that raises (e.g. the file cannot be opened): the
call is not wrapped in any try/except inside `_flush_queue`, so the
exception propagates out (`Except.error`). `transport batch i` is the
result of attempt `i` of POSTing `batch`. Fuel-indexed: the loop
removes at least one entry per iteration, so `queue.length` fuel
suffices (see `flush`). -/
def flushQueueGo (estSize : String → Nat) (backupEnabled backupOk : Bool)
    (numberOfRetries : Nat) (transport : List String → Nat → AttemptResult) :
    Nat → List String → Except Unit (List SendEvent)
  | 0, _ => Except.ok []
  | _ + 1, [] => Except.ok []
  | fuel + 1, x :: queueRest =>
    let r := getMessagesUpToMaxAllowedSize estSize (x :: queueRest)
    let d := deliver numberOfRetries (transport r.1)
    if d.1 = SendOutcome.exhausted && backupEnabled then
      if backupOk then
        match flushQueueGo estSize backupEnabled backupOk numberOfRetries
            transport fuel r.2 with
        | Except.ok evs => Except.ok (d.2 ++ SendEvent.backupWrite :: evs)
        | Except.error e => Except.error e
      else Except.error ()
    else
      match flushQueueGo estSize backupEnabled backupOk numberOfRetries
          transport fuel r.2 with
      | Except.ok evs => Except.ok (d.2 ++ evs)
      | Except.error e => Except.error e

/-- The public `flush` facade: `flush()` just calls `_flush_queue()`
directly, with no try/except of its own, so any exception raised inside
`_flush_queue` (in particular a `backup_logs` fault) reaches the direct
caller. -/
def flush (estSize : String → Nat) (backupEnabled backupOk : Bool)
    (numberOfRetries : Nat) (transport : List String → Nat → AttemptResult)
    (queue : List String) : Except Unit (List SendEvent) :=
  flushQueueGo estSize backupEnabled backupOk numberOfRetries transport
    queue.length queue

/-- The `try: self._flush_queue() except Exception: log` body of one
`_drain_queue` iteration: an exceptional flush is swallowed (logged at
debug level) and the worker goes on; a normal flush yields its events. -/
def drainCycle (flushResult : Except Unit (List SendEvent)) : List SendEvent :=
  match flushResult with
  | Except.ok evs => evs
  | Except.error _ => []

/-- Observable scheduling events of `_drain_queue`: one guarded flush
cycle, or the `sleep(self.logs_drain_timeout)` between cycles. -/
inductive DrainEvent
  | flushCycle
  | sleepDrain
deriving DecidableEq, Repr

/-- The `while not last_try` loop of `_drain_queue`, run over the
sequence of values returned by `is_main_thread_active()` at the top of
successive iterations. While the main thread is alive: flush, then
sleep `logs_drain_timeout`, then loop. Once the check observes that the
main thread has ended (`last_try = True`): flush one final time, skip
the sleep, and exit the loop — any later observations are never
consulted. An exhausted observation list models a still-running loop
whose next check has not happened yet. -/
def drainQueueLoop : List Bool → List DrainEvent
  | [] => []
  | alive :: rest =>
    if alive then
      DrainEvent.flushCycle :: DrainEvent.sleepDrain :: drainQueueLoop rest
    else [DrainEvent.flushCycle]

/-- The sender state visible to `append`: the FIFO queue of serialized
entries and the liveness of the sending thread. -/
structure SenderState where
  queue : List String
  sendingThreadAlive : Bool
deriving DecidableEq, Repr

/-- `LogzioSender.append(logs_message)`: if the sending thread is not
alive, restart it (`_initialize_sending_thread`), then
`queue.put(json.dumps(logs_message, ...))`. `serialize` abstracts
`json.dumps` with `CustomJSONEncoder` over the messages the handler
passes (total on JSON-serializable messages). The returned event list
records the delivery-side effects `append` performs: none — it only
enqueues, never POSTs, sleeps or writes a backup, and it returns a
plain value (no `Except`): nothing is raised to the caller. -/
def appendMessage {α : Type} (serialize : α → String) (s : SenderState)
    (msg : α) : SenderState × List SendEvent :=
  let s1 := if s.sendingThreadAlive then s
            else { s with sendingThreadAlive := true }
  ({ s1 with queue := s1.queue ++ [serialize msg] }, [])

/-- The constructor arguments of `LogzioSender.__init__` (besides the
debug toggle): note there is no batch-size-cap parameter among them.
The numeric `network_timeout` (a float in the source) is modelled as a
rational. -/
structure SenderConfig where
  token : String
  url : String
  logsDrainTimeout : Nat
  backupLogs : Bool
  networkTimeout : Rat
  numberOfRetries : Nat
  retryTimeout : Nat
deriving DecidableEq, Repr

/-- `_get_messages_up_to_max_allowed_size` as a method of a configured
sender: the method body reads only the queue and the module-level
constant `MAX_BULK_SIZE_IN_BYTES`; no field of the configuration enters
it. -/
def getMessagesOfSender (estSize : String → Nat) (_cfg : SenderConfig)
    (queue : List String) : List String × List String :=
  getMessagesUpToMaxAllowedSize estSize queue

/-- Python's `'\n'.join(logs)`: entries joined by single newlines, no
trailing delimiter. -/
def joinWithNewline : List String → String
  | [] => ""
  | [l] => l
  | l :: m :: rest => l ++ "\n" ++ joinWithNewline (m :: rest)

/-- Splitting file content into physical lines (accumulator holds the
current line's characters in reverse). `linesAux "" = [""]`,
`linesAux "a\nb" = ["a", "b"]`. -/
def linesAux : List Char → List Char → List String
  | [], acc => [String.mk acc.reverse]
  | c :: cs, acc =>
    if c = '\n' then String.mk acc.reverse :: linesAux cs []
    else linesAux cs (c :: acc)

/-- The physical lines of a file's content. -/
def linesOf (s : String) : List String := linesAux s.data []

/-- `backup_logs(logs, logger)`: opens
`logzio-failures-<timestamp>.txt` in append mode (`'a'`) and writes
`'\n'.join(logs)` — `f.writelines` of a single string writes that
string. `existing` is the file's prior content: `none` when the
timestamped name is fresh, `some c` when a same-second collision makes
the write append to a file already holding `c`. -/
def backupContent (existing : Option String) (logs : List String) : String :=
  existing.getD "" ++ joinWithNewline logs

/-- The sequence of batches the `while not self.queue.empty()` loop of
`_flush_queue` pulls from the queue, in delivery order. Fuel-indexed as
in `flushQueueGo`; each iteration removes at least one entry, so
`queue.length` fuel suffices (see `deliveredBatches`). -/
def flushBatchesGo (estSize : String → Nat) :
    Nat → List String → List (List String)
  | 0, _ => []
  | _ + 1, [] => []
  | fuel + 1, x :: rest =>
    (getMessagesUpToMaxAllowedSize estSize (x :: rest)).1 ::
      flushBatchesGo estSize fuel
        (getMessagesUpToMaxAllowedSize estSize (x :: rest)).2

/-- All batches delivered for a given queue content, in delivery
order. -/
def deliveredBatches (estSize : String → Nat) (queue : List String) :
    List (List String) :=
  flushBatchesGo estSize queue.length queue

/-! ### Helper lemmas about the attempt loop -/

lemma isTransient_status {c : Nat}
    (h : isTransient (AttemptResult.status c) = true) :
    c ≠ 200 ∧ c ≠ 400 ∧ c ≠ 401 := by
  simp [isTransient] at h
  exact ⟨h.1.1, h.1.2, h.2⟩

lemma sendGo_transient (transport : Nat → AttemptResult) :
    ∀ l : List Nat, (∀ i ∈ l, isTransient (transport i) = true) →
      sendGo transport l =
        (SendOutcome.exhausted,
         (List.replicate l.length [SendEvent.post, SendEvent.sleepRetry]).flatten)
  | [], _ => by simp [sendGo]
  | i :: rest, h => by
    have hr := sendGo_transient transport rest fun j hj => h j (by simp [hj])
    have hi := h i (by simp)
    cases htr : transport i with
    | status c =>
      obtain ⟨h200, h400, h401⟩ := isTransient_status (htr ▸ hi)
      simp [sendGo, htr, h200, h400, h401, hr, List.replicate_succ]
    | exn => simp [sendGo, htr, hr, List.replicate_succ]

lemma count_post_join (n : Nat) :
    ((List.replicate n [SendEvent.post, SendEvent.sleepRetry]).flatten).count
      SendEvent.post = n := by
  induction n with
  | zero => simp
  | succ n ih => simp [List.replicate_succ, ih]

lemma count_sleep_join (n : Nat) :
    ((List.replicate n [SendEvent.post, SendEvent.sleepRetry]).flatten).count
      SendEvent.sleepRetry = n := by
  induction n with
  | zero => simp
  | succ n ih => simp [List.replicate_succ, ih]

lemma count_backup_join (n : Nat) :
    ((List.replicate n [SendEvent.post, SendEvent.sleepRetry]).flatten).count
      SendEvent.backupWrite = 0 := by
  induction n with
  | zero => simp
  | succ n ih => simp [List.replicate_succ, ih]

lemma deliver_transient (n : Nat) (transport : Nat → AttemptResult)
    (h : ∀ i < n, isTransient (transport i) = true) :
    deliver n transport =
      (SendOutcome.exhausted,
       (List.replicate n [SendEvent.post, SendEvent.sleepRetry]).flatten) := by
  have := sendGo_transient transport (List.range n)
    fun i hi => h i (List.mem_range.mp hi)
  simpa [deliver] using this

/-! ### Claims about the retry loop -/

/-- Claim C1: for every batch and every `maxRetries >= 1`, if the
transport yields a non-200/400/401 status or a transport-level fault on
every attempt, the loop performs exactly `maxRetries` POST attempts,
ends `exhausted`, and (with backup enabled) reaches the backup-to-disk
branch exactly once. -/
theorem retry_exhaustion (n : Nat) (transport : Nat → AttemptResult)
    (_hn : 1 ≤ n) (h : ∀ i < n, isTransient (transport i) = true) :
    (deliver n transport).1 = SendOutcome.exhausted ∧
    (deliver n transport).2.count SendEvent.post = n ∧
    (flushBatch true n transport).2.count SendEvent.backupWrite = 1 := by
  have key := deliver_transient n transport h
  refine ⟨by rw [key], by rw [key]; exact count_post_join n, ?_⟩
  unfold flushBatch
  rw [key]
  simp [count_backup_join]

theorem retry_exhaustion_witness :
    (deliver 2 (fun _ => AttemptResult.exn)).1 = SendOutcome.exhausted ∧
    (deliver 2 (fun _ => AttemptResult.exn)).2.count SendEvent.post = 2 ∧
    (flushBatch true 2 (fun _ => AttemptResult.exn)).2.count
      SendEvent.backupWrite = 1 :=
  retry_exhaustion 2 (fun _ => AttemptResult.exn) (by decide) fun _ _ => rfl

/-- Claim C2: if the transport returns 400 or 401 on the first attempt,
exactly one POST attempt is made, the outcome is `rejected`, and the
fallback sink is not invoked regardless of the backup-on-failure
configuration `b`. -/
theorem no_retry_on_400_401 (n : Nat) (transport : Nat → AttemptResult)
    (b : Bool) (hn : 1 ≤ n)
    (h : transport 0 = AttemptResult.status 400 ∨
         transport 0 = AttemptResult.status 401) :
    (flushBatch b n transport).1 = SendOutcome.rejected ∧
    (flushBatch b n transport).2.count SendEvent.post = 1 ∧
    (flushBatch b n transport).2.count SendEvent.backupWrite = 0 := by
  obtain ⟨m, rfl⟩ : ∃ m, n = m + 1 := ⟨n - 1, by omega⟩
  have key : deliver (m + 1) transport =
      (SendOutcome.rejected, [SendEvent.post]) := by
    rw [deliver, List.range_succ_eq_map]
    rcases h with h | h <;> simp [sendGo, h]
  unfold flushBatch
  rw [key]
  simp

theorem no_retry_on_400_401_witness :
    (flushBatch true 1 (fun _ => AttemptResult.status 400)).1 =
      SendOutcome.rejected ∧
    (flushBatch true 1 (fun _ => AttemptResult.status 400)).2.count
      SendEvent.post = 1 ∧
    (flushBatch true 1 (fun _ => AttemptResult.status 400)).2.count
      SendEvent.backupWrite = 0 :=
  no_retry_on_400_401 1 (fun _ => AttemptResult.status 400) true (by decide)
    (Or.inl rfl)

/-- Claim C9, counterexample to the claim as stated: with
`maxRetries = 1` and a transport that faults on every attempt, the
claim predicts `maxRetries - 1 = 0` retry sleeps, but the code sleeps
after the final failed attempt too, so one sleep occurs. -/
theorem retry_sleep_count_cex :
    ¬ ((deliver 1 (fun _ => AttemptResult.exn)).2.count SendEvent.sleepRetry
        = 1 - 1) := by decide

/-- Claim C9 as amended: when every attempt fails transiently, a
`retryTimeout` sleep follows every failed attempt — the final one
included — so exactly `maxRetries` sleeps occur, the trace being
`maxRetries` repetitions of POST-then-sleep. -/
theorem retry_sleep_after_each_failure (n : Nat)
    (transport : Nat → AttemptResult)
    (h : ∀ i < n, isTransient (transport i) = true) :
    (deliver n transport).2 =
      (List.replicate n [SendEvent.post, SendEvent.sleepRetry]).flatten ∧
    (deliver n transport).2.count SendEvent.sleepRetry = n := by
  have key := deliver_transient n transport h
  exact ⟨by rw [key], by rw [key]; exact count_sleep_join n⟩

theorem retry_sleep_after_each_failure_witness :
    (deliver 2 (fun _ => AttemptResult.exn)).2 =
      (List.replicate 2 [SendEvent.post, SendEvent.sleepRetry]).flatten ∧
    (deliver 2 (fun _ => AttemptResult.exn)).2.count SendEvent.sleepRetry
      = 2 :=
  retry_sleep_after_each_failure 2 (fun _ => AttemptResult.exn) fun _ _ => rfl

/-! ### Helper lemmas about batch assembly -/

lemma sum_dropLast_le : ∀ l : List Nat, l.dropLast.sum ≤ l.sum
  | [] => le_refl _
  | [_] => by simp
  | a :: b :: rest => by
    have h := sum_dropLast_le (b :: rest)
    simp only [List.dropLast_cons₂, List.sum_cons] at h ⊢
    omega

lemma assembleGo_decomp (estSize : String → Nat) (maxBytes : Nat) :
    ∀ (q acc : List String) (cs : Nat),
      (assembleGo estSize maxBytes q cs acc).1 ++
        (assembleGo estSize maxBytes q cs acc).2 = acc.reverse ++ q
  | [], acc, cs => by simp [assembleGo]
  | x :: rest, acc, cs => by
    by_cases hle : maxBytes ≤ cs + estSize x
    · simp [assembleGo, hle]
    · have ih := assembleGo_decomp estSize maxBytes rest (x :: acc)
        (cs + estSize x)
      simp only [assembleGo, if_neg hle]
      simpa using ih

lemma assembleGo_ne_nil (estSize : String → Nat) (maxBytes : Nat) :
    ∀ (q acc : List String) (cs : Nat), acc ≠ [] ∨ q ≠ [] →
      (assembleGo estSize maxBytes q cs acc).1 ≠ []
  | [], acc, cs, h => by
    rcases h with h | h
    · simpa [assembleGo] using h
    · simp at h
  | x :: rest, acc, cs, h => by
    by_cases hle : maxBytes ≤ cs + estSize x
    · simp [assembleGo, hle]
    · have ih := assembleGo_ne_nil estSize maxBytes rest (x :: acc)
        (cs + estSize x) (Or.inl (by simp))
      simpa [assembleGo, if_neg hle] using ih

lemma assembleGo_size (estSize : String → Nat) (maxBytes : Nat) :
    ∀ (q acc : List String) (cs : Nat),
      cs = (acc.map estSize).sum → cs < maxBytes →
      (((assembleGo estSize maxBytes q cs acc).1.dropLast).map estSize).sum
        < maxBytes
  | [], acc, cs, hsum, hlt => by
    simp only [assembleGo]
    have h1 : ((acc.reverse.dropLast).map estSize).sum ≤
        ((acc.reverse).map estSize).sum := by
      rw [List.map_dropLast]
      exact sum_dropLast_le _
    have h2 : (acc.reverse.map estSize).sum = (acc.map estSize).sum := by
      rw [List.map_reverse, List.sum_reverse]
    omega
  | x :: rest, acc, cs, hsum, hlt => by
    by_cases hle : maxBytes ≤ cs + estSize x
    · simp only [assembleGo, if_pos hle, List.reverse_cons,
        List.dropLast_concat]
      have h2 : (acc.reverse.map estSize).sum = (acc.map estSize).sum := by
        rw [List.map_reverse, List.sum_reverse]
      omega
    · have hlt' : cs + estSize x < maxBytes := by omega
      have ih := assembleGo_size estSize maxBytes rest (x :: acc)
        (cs + estSize x) (by simp [hsum]; omega) hlt'
      simpa [assembleGo, if_neg hle] using ih

lemma flushBatchesGo_flatten (estSize : String → Nat) :
    ∀ (fuel : Nat) (q : List String), q.length ≤ fuel →
      (flushBatchesGo estSize fuel q).flatten = q
  | 0, q, h => by
    have hq : q = [] := List.length_eq_zero.mp (Nat.le_zero.mp h)
    subst hq
    simp [flushBatchesGo]
  | _ + 1, [], _ => by simp [flushBatchesGo]
  | fuel + 1, x :: rest, h => by
    have hdec : (getMessagesUpToMaxAllowedSize estSize (x :: rest)).1 ++
        (getMessagesUpToMaxAllowedSize estSize (x :: rest)).2 = x :: rest := by
      simpa [getMessagesUpToMaxAllowedSize, assembleWithCap] using
        assembleGo_decomp estSize MAX_BULK_SIZE_IN_BYTES (x :: rest) [] 0
    have hne : (getMessagesUpToMaxAllowedSize estSize (x :: rest)).1 ≠ [] := by
      simpa [getMessagesUpToMaxAllowedSize, assembleWithCap] using
        assembleGo_ne_nil estSize MAX_BULK_SIZE_IN_BYTES (x :: rest) [] 0
          (Or.inr (by simp))
    have hlen : (getMessagesUpToMaxAllowedSize estSize (x :: rest)).2.length
        ≤ fuel := by
      have hl := congrArg List.length hdec
      simp only [List.length_append, List.length_cons] at hl
      have hb : 0 < (getMessagesUpToMaxAllowedSize estSize (x :: rest)).1.length :=
        List.length_pos.mpr hne
      simp only [List.length_cons] at h
      omega
    have ih := flushBatchesGo_flatten estSize fuel _ hlen
    simp only [flushBatchesGo, List.flatten_cons, ih]
    exact hdec

/-! ### Claims about batch assembly -/

/-- Claim C3: for every queue state and positive cap `M`, the assembled
batch's entries except the last have estimated sizes summing to
strictly less than `M`, and the batch is non-empty whenever the queue
was non-empty at assembly time. -/
theorem size_bounding (estSize : String → Nat) (M : Nat)
    (queue : List String) (hM : 0 < M) :
    (((assembleWithCap estSize M queue).1.dropLast).map estSize).sum < M ∧
    (queue ≠ [] → (assembleWithCap estSize M queue).1 ≠ []) :=
  ⟨assembleGo_size estSize M queue [] 0 (by simp) hM,
   fun hq => assembleGo_ne_nil estSize M queue [] 0 (Or.inr hq)⟩

theorem size_bounding_witness :
    (((assembleWithCap String.length MAX_BULK_SIZE_IN_BYTES
        ["a", "b"]).1.dropLast).map String.length).sum
      < MAX_BULK_SIZE_IN_BYTES ∧
    (["a", "b"] ≠ [] →
      (assembleWithCap String.length MAX_BULK_SIZE_IN_BYTES
        ["a", "b"]).1 ≠ []) :=
  size_bounding String.length MAX_BULK_SIZE_IN_BYTES ["a", "b"] (by decide)

/-- Claim C4: the concatenation of the delivered batches, in delivery
order, is exactly the enqueue sequence — strict FIFO within and across
batches. -/
theorem fifo_order (estSize : String → Nat) (queue : List String) :
    (deliveredBatches estSize queue).flatten = queue :=
  flushBatchesGo_flatten estSize queue.length queue (le_refl _)

/-! ### Claims about the drain loop and the facade -/

lemma count_flush_flatten (n : Nat) :
    ((List.replicate n [DrainEvent.flushCycle, DrainEvent.sleepDrain]).flatten).count
      DrainEvent.flushCycle = n := by
  induction n with
  | zero => simp
  | succ n ih => simp [List.replicate_succ, ih]

/-- Claim C5: once an iteration's check observes that the main thread
has ended, the loop performs exactly one more flush cycle, with no
`drainTimeout` sleep after it, and exits permanently: the trace is
independent of any later observations `rest`, and holds `n + 1` flush
cycles for `n` alive observations before the detection. -/
theorem shutdown_drain (n : Nat) (rest : List Bool) :
    drainQueueLoop (List.replicate n true ++ false :: rest) =
      (List.replicate n [DrainEvent.flushCycle, DrainEvent.sleepDrain]).flatten
        ++ [DrainEvent.flushCycle] ∧
    (drainQueueLoop (List.replicate n true ++ false :: rest)).count
      DrainEvent.flushCycle = n + 1 := by
  have key : drainQueueLoop (List.replicate n true ++ false :: rest) =
      (List.replicate n [DrainEvent.flushCycle, DrainEvent.sleepDrain]).flatten
        ++ [DrainEvent.flushCycle] := by
    induction n with
    | zero => simp [drainQueueLoop]
    | succ n ih => simp [List.replicate_succ, drainQueueLoop, ih]
  refine ⟨key, ?_⟩
  rw [key]
  simp [count_flush_flatten]

/-- Claim C6: `append` is fire-and-forget: it returns normally (its
type is a plain value, no exception), enqueues the serialized message
at the tail of the FIFO queue, leaves the sending thread alive
(restarting it when it was dead), and performs no delivery-side effect
at all — no POST, no sleep, no backup write happens at the call
site. -/
theorem append_fire_and_forget {α : Type} (serialize : α → String)
    (s : SenderState) (msg : α) :
    (appendMessage serialize s msg).1.queue = s.queue ++ [serialize msg] ∧
    (appendMessage serialize s msg).1.sendingThreadAlive = true ∧
    (appendMessage serialize s msg).2 = [] := by
  unfold appendMessage
  by_cases h : s.sendingThreadAlive <;> simp [h]

/-- Claim C10: the batch assembler's byte cap is the fixed constant
1,048,576 bytes for every sender instance; no constructor argument of
`LogzioSender.__init__` (modelled by `SenderConfig`) enters the
assembly, so any two configurations compute the same partition of a
given queue content. -/
theorem bulk_cap_fixed :
    MAX_BULK_SIZE_IN_BYTES = 1048576 ∧
    ∀ (estSize : String → Nat) (cfg cfg' : SenderConfig)
      (queue : List String),
      getMessagesOfSender estSize cfg queue =
        getMessagesOfSender estSize cfg' queue :=
  ⟨rfl, fun _ _ _ _ => rfl⟩

/-! ### Helper lemmas about the fallback sink's file content -/

lemma linesAux_no_newline : ∀ (cs acc : List Char), ¬ '\n' ∈ cs →
    linesAux cs acc = [String.mk (acc.reverse ++ cs)]
  | [], acc, _ => by simp [linesAux]
  | c :: cs, acc, h => by
    have h1 : ¬ c = '\n' := fun e => h (by simp [e])
    have h2 : ¬ '\n' ∈ cs := fun e => h (by simp [e])
    have ih := linesAux_no_newline cs (c :: acc) h2
    simp only [linesAux, if_neg h1, ih, List.reverse_cons,
      List.append_assoc, List.singleton_append]

lemma linesAux_newline_mid : ∀ (cs : List Char), ¬ '\n' ∈ cs →
    ∀ (rest acc : List Char),
      linesAux (cs ++ '\n' :: rest) acc =
        String.mk (acc.reverse ++ cs) :: linesAux rest []
  | [], _, rest, acc => by simp [linesAux]
  | c :: cs, h, rest, acc => by
    have h1 : ¬ c = '\n' := fun e => h (by simp [e])
    have h2 : ¬ '\n' ∈ cs := fun e => h (by simp [e])
    have ih := linesAux_newline_mid cs h2 rest (c :: acc)
    simp only [List.reverse_cons, List.append_assoc,
      List.singleton_append] at ih
    simpa [List.cons_append, linesAux, if_neg h1] using ih

lemma data_join_cons (l m : String) (rest : List String) :
    (joinWithNewline (l :: m :: rest)).data =
      l.data ++ '\n' :: (joinWithNewline (m :: rest)).data := by
  show (l ++ "\n" ++ joinWithNewline (m :: rest)).data = _
  simp [String.data_append]

lemma linesOf_joinWithNewline : ∀ logs : List String, logs ≠ [] →
    (∀ l ∈ logs, ¬ '\n' ∈ l.data) →
    linesOf (joinWithNewline logs) = logs
  | [], h, _ => absurd rfl h
  | [l], _, h => by
    have := linesAux_no_newline l.data [] (h l (by simp))
    simpa [linesOf, joinWithNewline] using this
  | l :: m :: rest, _, h => by
    have hl := h l (by simp)
    have ih := linesOf_joinWithNewline (m :: rest) (by simp)
      fun x hx => h x (by simp at hx ⊢; tauto)
    unfold linesOf
    rw [data_join_cons, linesAux_newline_mid l.data hl]
    unfold linesOf at ih
    rw [ih]
    simp

/-! ### Claims about the fallback sink and fault isolation -/

/-- Claim C7, counterexample to the claim as stated: when a same-second
timestamp collision makes `backup_logs` append to an existing file, the
resulting content does not hold every batch entry on its own line: the
write emits `'\n'.join(logs)` with no separating newline after the
existing content, so the batch entry `"b"` appended after prior content
`"a"` yields the single line `"ab"` and `"b"` is on no line of the
file. -/
theorem fallback_one_per_line_cex :
    ¬ ("b" ∈ linesOf (backupContent (some "a") ["b"])) := by decide

/-- Claim C7 as amended: whenever delivery ends `exhausted` and backup
is enabled, exactly one fallback write occurs for the batch; when the
timestamped file is fresh the written content holds all batch entries,
one per line, in batch order; on a same-second collision the joined
batch is appended directly after the existing content with no
separating newline (so the first new entry continues the existing last
line). -/
theorem fallback_write_content (n : Nat) (transport : Nat → AttemptResult)
    (logs : List String) (existing : String)
    (htr : ∀ i < n, isTransient (transport i) = true)
    (hne : logs ≠ []) (hnl : ∀ l ∈ logs, ¬ '\n' ∈ l.data) :
    (flushBatch true n transport).2.count SendEvent.backupWrite = 1 ∧
    linesOf (backupContent none logs) = logs ∧
    backupContent (some existing) logs = existing ++ joinWithNewline logs := by
  refine ⟨?_, ?_, rfl⟩
  · have key := deliver_transient n transport htr
    unfold flushBatch
    rw [key]
    simp [count_backup_join]
  · simpa [backupContent] using linesOf_joinWithNewline logs hne hnl

theorem fallback_write_content_witness :
    (flushBatch true 1 (fun _ => AttemptResult.exn)).2.count
      SendEvent.backupWrite = 1 ∧
    linesOf (backupContent none ["a", "b"]) = ["a", "b"] ∧
    backupContent (some "z") ["a", "b"] = "z" ++ joinWithNewline ["a", "b"] :=
  fallback_write_content 1 (fun _ => AttemptResult.exn) ["a", "b"] "z"
    (fun _ _ => rfl) (by decide) (by decide)

/-- Claim C8, counterexample to the claim as stated: a fallback-write
fault is not caught in every delivery path. With a failing backup sink
(`backupOk = false`), backup enabled, one entry queued and a transport
that faults on the single configured attempt, `flush()` — which calls
`_flush_queue` with no try/except of its own — propagates the fault to
its direct caller. -/
theorem flush_fault_cex :
    flush String.length true false 1 (fun _ _ => AttemptResult.exn) ["x"]
      = Except.error () := by rfl

/-- Claim C8 as amended: a fallback-write fault aborts the current
`_flush_queue` call exceptionally and propagates to a direct caller of
`flush()`; in the background worker the fault is caught (and logged) by
the try/except of the `_drain_queue` iteration, so it does not
terminate the worker — only the affected batch's entries are lost. -/
theorem fallback_fault_isolation (estSize : String → Nat) (n : Nat)
    (transport : List String → Nat → AttemptResult) (q : List String)
    (hq : q ≠ []) (htr : ∀ b i, isTransient (transport b i) = true) :
    flush estSize true false n transport q = Except.error () ∧
    drainCycle (flush estSize true false n transport q) = [] := by
  obtain ⟨x, rest, rfl⟩ : ∃ x rest, q = x :: rest := by
    cases q with
    | nil => exact absurd rfl hq
    | cons x rest => exact ⟨x, rest, rfl⟩
  have key := deliver_transient n
    (transport (getMessagesUpToMaxAllowedSize estSize (x :: rest)).1)
    fun i _ => htr _ i
  have herr : flush estSize true false n transport (x :: rest)
      = Except.error () := by
    simp [flush, flushQueueGo, key]
  exact ⟨herr, by rw [herr]; rfl⟩

theorem fallback_fault_isolation_witness :
    flush String.length true false 1 (fun _ _ => AttemptResult.exn) ["y"]
      = Except.error () ∧
    drainCycle (flush String.length true false 1
      (fun _ _ => AttemptResult.exn) ["y"]) = [] :=
  fallback_fault_isolation String.length 1 (fun _ _ => AttemptResult.exn)
    ["y"] (by decide) (fun _ _ => rfl)

end Logzio
